import Mathlib

/-!
Verification of the core routing engine of the apiserver network proxy
server: backend storage and selection, the pending-dial table, the
frontend registry, the frontend/backend stream handlers and the HTTP
CONNECT tunnel, shallowly embedded from the Go sources
(pkg/server/server.go, pkg/server/backend_manager.go,
pkg/server/tunnel.go).

Go maps are embedded as association lists with first-occurrence lookup
semantics (`alookup`), in-place assignment (`aset`) and deletion
(`adel`).  Backend handles and stream connections are identified by
numeric ids, reflecting the handle-identity discipline the server
relies on.  Fallible or panicking Go code is embedded with `Option` /
explicit crash results.
-/

namespace Proxy

/-- The wire-protocol packet variants routed by the server
(DIAL_REQ, DIAL_RSP, DATA, CLOSE_REQ, CLOSE_RSP), with the fields the
routing code reads. -/
inductive Packet
  | dialReq (protocol : String) (address : String) (random : Int)
  | dialRsp (random : Int) (connectID : Int) (error : String)
  | data (connectID : Int) (bytes : List Nat)
  | closeReq (connectID : Int)
  | closeRsp (connectID : Int)
deriving DecidableEq

/-- Model of `ProxyClientConnection` from server.go: one frontend routing
record.  The gRPC stream / hijacked socket and start-time fields are
external resources and are not part of the routed state; the
`connected` latch is tracked per record id at the server-state level.
`rid` is the record's object identity, `backendId` the identity of the
backend handle latched at dial time. -/
structure Record where
  rid : Nat
  mode : String
  backendId : Nat
  connID : Int
  agentID : String
deriving DecidableEq

/-! ## Association lists embedding Go maps -/

/-- Lookup in an association list (Go `m[k]`, presence-checked). -/
def alookup {K V : Type} [DecidableEq K] (k : K) : List (K × V) → Option V
  | [] => none
  | (k1, v) :: rest => if k1 = k then some v else alookup k rest

/-- Go map assignment `m[k] = v`: replace the binding if present,
otherwise append a new one. -/
def aset {K V : Type} [DecidableEq K] (k : K) (v : V) : List (K × V) → List (K × V)
  | [] => [(k, v)]
  | (k1, v1) :: rest => if k1 = k then (k, v) :: rest else (k1, v1) :: aset k v rest

/-- Go map deletion `delete(m, k)`. -/
def adel {K V : Type} [DecidableEq K] (k : K) : List (K × V) → List (K × V)
  | [] => []
  | (k1, v1) :: rest => if k1 = k then adel k rest else (k1, v1) :: adel k rest

theorem alookup_cons_pos {K V : Type} [DecidableEq K] (k : K) (v1 : V) (tl : List (K × V)) :
    alookup k ((k, v1) :: tl) = some v1 := by
  simp [alookup]

theorem alookup_cons_neg {K V : Type} [DecidableEq K] {k k1 : K} (v1 : V) (tl : List (K × V))
    (h : k1 ≠ k) : alookup k ((k1, v1) :: tl) = alookup k tl := by
  simp [alookup, h]

theorem aset_cons_pos {K V : Type} [DecidableEq K] (k : K) (v v1 : V) (tl : List (K × V)) :
    aset k v ((k, v1) :: tl) = (k, v) :: tl := by
  simp [aset]

theorem aset_cons_neg {K V : Type} [DecidableEq K] {k k1 : K} (v v1 : V) (tl : List (K × V))
    (h : k1 ≠ k) : aset k v ((k1, v1) :: tl) = (k1, v1) :: aset k v tl := by
  simp [aset, h]

theorem adel_cons_pos {K V : Type} [DecidableEq K] (k : K) (v1 : V) (tl : List (K × V)) :
    adel k ((k, v1) :: tl) = adel k tl := by
  simp [adel]

theorem adel_cons_neg {K V : Type} [DecidableEq K] {k k1 : K} (v1 : V) (tl : List (K × V))
    (h : k1 ≠ k) : adel k ((k1, v1) :: tl) = (k1, v1) :: adel k tl := by
  simp [adel, h]

theorem alookup_aset_self {K V : Type} [DecidableEq K] (k : K) (v : V) (l : List (K × V)) :
    alookup k (aset k v l) = some v := by
  induction l with
  | nil => simp [aset, alookup]
  | cons hd tl ih =>
    obtain ⟨k1, v1⟩ := hd
    by_cases h : k1 = k
    · simp [aset, alookup, h]
    · simp [aset, alookup, h, ih]

theorem alookup_aset_ne {K V : Type} [DecidableEq K] {k k2 : K} (v : V) (l : List (K × V))
    (h : k2 ≠ k) : alookup k2 (aset k v l) = alookup k2 l := by
  induction l with
  | nil => simp [aset, alookup, Ne.symm h]
  | cons hd tl ih =>
    obtain ⟨k1, v1⟩ := hd
    by_cases h1 : k1 = k
    · subst h1
      simp [aset, alookup, Ne.symm h]
    · simp [aset, alookup, h1, ih]

theorem alookup_adel_self {K V : Type} [DecidableEq K] (k : K) (l : List (K × V)) :
    alookup k (adel k l) = none := by
  induction l with
  | nil => simp [adel, alookup]
  | cons hd tl ih =>
    obtain ⟨k1, v1⟩ := hd
    by_cases h : k1 = k
    · simp [adel, h, ih]
    · simp [adel, alookup, h, ih]

theorem alookup_adel_ne {K V : Type} [DecidableEq K] {k k2 : K} (l : List (K × V))
    (h : k2 ≠ k) : alookup k2 (adel k l) = alookup k2 l := by
  induction l with
  | nil => simp [adel]
  | cons hd tl ih =>
    obtain ⟨k1, v1⟩ := hd
    by_cases h1 : k1 = k
    · subst h1
      simp [adel, alookup, Ne.symm h, ih]
    · simp [adel, alookup, h1, ih]

theorem mem_adel {K V : Type} [DecidableEq K] {k : K} {l : List (K × V)} {p : K × V} :
    p ∈ adel k l ↔ p ∈ l ∧ p.1 ≠ k := by
  induction l with
  | nil => simp [adel]
  | cons hd tl ih =>
    obtain ⟨k1, v1⟩ := hd
    by_cases h : k1 = k
    · subst h
      rw [adel_cons_pos, ih, List.mem_cons]
      constructor
      · exact fun hh => ⟨Or.inr hh.1, hh.2⟩
      · rintro ⟨rfl | hmem, hne⟩
        · exact absurd rfl hne
        · exact ⟨hmem, hne⟩
    · rw [adel_cons_neg _ _ h, List.mem_cons, List.mem_cons, ih]
      constructor
      · rintro (rfl | hh)
        · exact ⟨Or.inl rfl, h⟩
        · exact ⟨Or.inr hh.1, hh.2⟩
      · rintro ⟨rfl | hmem, hne⟩
        · exact Or.inl rfl
        · exact Or.inr ⟨hmem, hne⟩

theorem mem_aset {K V : Type} [DecidableEq K] {k : K} {v : V} {l : List (K × V)} {p : K × V}
    (hp : p ∈ aset k v l) : p = (k, v) ∨ p ∈ l := by
  induction l with
  | nil => simpa [aset] using hp
  | cons hd tl ih =>
    obtain ⟨k1, v1⟩ := hd
    by_cases h : k1 = k
    · simp only [aset, if_pos h, List.mem_cons] at hp
      rcases hp with rfl | hp
      · exact Or.inl rfl
      · exact Or.inr (List.mem_cons_of_mem _ hp)
    · simp only [aset, if_neg h, List.mem_cons] at hp
      rcases hp with rfl | hp
      · exact Or.inr (List.mem_cons_self _ _)
      · rcases ih hp with h1 | h1
        · exact Or.inl h1
        · exact Or.inr (List.mem_cons_of_mem _ h1)

theorem alookup_mem {K V : Type} [DecidableEq K] {k : K} {v : V} {l : List (K × V)}
    (h : alookup k l = some v) : (k, v) ∈ l := by
  induction l with
  | nil => simp [alookup] at h
  | cons hd tl ih =>
    obtain ⟨k1, v1⟩ := hd
    by_cases h1 : k1 = k
    · subst h1
      rw [alookup_cons_pos] at h
      injection h with h2
      subst h2
      exact List.mem_cons_self _ _
    · rw [alookup_cons_neg _ _ h1] at h
      exact List.mem_cons_of_mem _ (ih h)

theorem alookup_eq_none {K V : Type} [DecidableEq K] {k : K} {l : List (K × V)} :
    alookup k l = none ↔ k ∉ l.map Prod.fst := by
  induction l with
  | nil => simp [alookup]
  | cons hd tl ih =>
    obtain ⟨k1, v1⟩ := hd
    by_cases h1 : k1 = k
    · subst h1
      simp [alookup]
    · simp [alookup, h1, ih, Ne.symm h1]

theorem keys_aset_subset {K V : Type} [DecidableEq K] (k : K) (v : V) (l : List (K × V)) :
    ((aset k v l).map Prod.fst) ⊆ k :: l.map Prod.fst := by
  intro x hx
  simp only [List.mem_map] at hx
  obtain ⟨p, hp, rfl⟩ := hx
  rcases mem_aset hp with rfl | hp
  · exact List.mem_cons_self _ _
  · exact List.mem_cons_of_mem _ (List.mem_map_of_mem Prod.fst hp)

theorem keys_nodup_aset {K V : Type} [DecidableEq K] (k : K) (v : V) {l : List (K × V)}
    (h : (l.map Prod.fst).Nodup) : ((aset k v l).map Prod.fst).Nodup := by
  induction l with
  | nil => simp [aset]
  | cons hd tl ih =>
    obtain ⟨k1, v1⟩ := hd
    simp only [List.map_cons, List.nodup_cons] at h
    by_cases h1 : k1 = k
    · subst h1
      rw [aset_cons_pos]
      simpa using h
    · rw [aset_cons_neg _ _ _ h1]
      simp only [List.map_cons, List.nodup_cons]
      refine ⟨fun hmem => ?_, ih h.2⟩
      rcases List.mem_cons.mp (keys_aset_subset k v tl hmem) with h2 | h2
      · exact h1 h2
      · exact h.1 h2

theorem keys_nodup_adel {K V : Type} [DecidableEq K] (k : K) {l : List (K × V)}
    (h : (l.map Prod.fst).Nodup) : ((adel k l).map Prod.fst).Nodup := by
  induction l with
  | nil => simp [adel]
  | cons hd tl ih =>
    obtain ⟨k1, v1⟩ := hd
    simp only [List.map_cons, List.nodup_cons] at h
    by_cases h1 : k1 = k
    · subst h1
      rw [adel_cons_pos]
      exact ih h.2
    · rw [adel_cons_neg _ _ h1]
      simp only [List.map_cons, List.nodup_cons]
      refine ⟨fun hmem => ?_, ih h.2⟩
      simp only [List.mem_map] at hmem
      obtain ⟨p, hp, hpk⟩ := hmem
      exact h.1 (by
        simp only [List.mem_map]
        exact ⟨p, (mem_adel.mp hp).1, hpk⟩)

theorem mem_alookup {K V : Type} [DecidableEq K] {k : K} {v : V} {l : List (K × V)}
    (hnd : (l.map Prod.fst).Nodup) (h : (k, v) ∈ l) : alookup k l = some v := by
  induction l with
  | nil => simp at h
  | cons hd tl ih =>
    obtain ⟨k1, v1⟩ := hd
    simp only [List.map_cons, List.nodup_cons] at hnd
    rcases List.mem_cons.mp h with heq | hmem
    · injection heq with h1 h2
      subst h1
      subst h2
      rw [alookup_cons_pos]
    · have hk1 : k1 ≠ k := by
        rintro rfl
        exact hnd.1 (List.mem_map_of_mem Prod.fst hmem)
      rw [alookup_cons_neg _ _ hk1]
      exact ih hnd.2 hmem

theorem adel_of_alookup_none {K V : Type} [DecidableEq K] {k : K} {l : List (K × V)}
    (h : alookup k l = none) : adel k l = l := by
  induction l with
  | nil => simp [adel]
  | cons hd tl ih =>
    obtain ⟨k1, v1⟩ := hd
    by_cases h1 : k1 = k
    · subst h1
      rw [alookup_cons_pos] at h
      exact absurd h (by simp)
    · rw [alookup_cons_neg _ _ h1] at h
      rw [adel_cons_neg _ _ h1, ih h]

/-! ## Frontend record send adapter (ProxyClientConnection.send) -/

/-- The externally observable action performed by one call of
`ProxyClientConnection.send`. -/
inductive SendAction
  | grpcForward (p : Packet)
  | closeSocket
  | writeBytes (bytes : List Nat)
  | noopOk
  | errUnsupportedType
  | errUnknownMode
deriving DecidableEq

/-- Model of `ProxyClientConnection.send` from server.go: route a packet to the
frontend's transport according to the record's mode.  The if-chain
mirrors the source: grpc mode forwards on the stream; http-connect
mode handles CLOSE_RSP, DATA and DIAL_RSP and rejects other types; any
other mode is rejected. -/
def pccSend (mode : String) (p : Packet) : SendAction :=
  if mode = "grpc" then .grpcForward p
  else if mode = "http-connect" then
    match p with
    | .closeRsp _ => .closeSocket
    | .data _ bytes => .writeBytes bytes
    | .dialRsp _ _ e => if e ≠ "" then .closeSocket else .noopOk
    | _ => .errUnsupportedType
  else .errUnknownMode

/-! ## Backend storage (backend_manager.go)

Backend handles wrap one agent stream each; a stream (grpc connection)
is identified by a numeric conn id, and since `DefaultBackendStorage`
stores exactly one handle per distinct conn, handles are identified by
their conn id as well. -/

/-- Result of running a piece of Go code that can panic at runtime. -/
inductive GoResult (α : Type)
  | ok (a : α)
  | crash
deriving DecidableEq

/-- Model of `DefaultBackendStorage`: the agentID-keyed map of backend handle
lists plus the parallel `agentIDs` slice used for random picks. -/
structure BStorage where
  backends : List (String × List Nat)
  agentIDs : List String
deriving DecidableEq

/-- Model of `NewDefaultBackendStorage()`: empty map, empty slice. -/
def emptyStorage : BStorage := { backends := [], agentIDs := [] }

/-- Model of `DefaultBackendStorage.GetBackend`: returns nil when the map is
empty, otherwise evaluates `s.backends[agentID][0]`.  When the map is
non-empty but `agentID` is absent, the map access yields a nil slice
and indexing it at 0 is a runtime panic (`crash`); likewise for a
present key holding an empty slice. -/
def getBackend (s : BStorage) (aid : String) : GoResult (Option Nat) :=
  if s.backends.isEmpty then .ok none
  else
    match alookup aid s.backends with
    | none => .crash
    | some l =>
      match l with
      | [] => .crash
      | c :: _ => .ok (some c)

/-- A value stored under `DestIPContextKey` in the request context:
either a string or a value of some other type. -/
inductive CtxVal
  | strVal (s : String)
  | nonString
deriving DecidableEq

/-- The error results of `BackendManager.Backend`. -/
inductive SelErr
  | noDestIP
  | typeAssertFailed
  | errNotFound
deriving DecidableEq

/-- Model of `DestIPBackendManager.Backend`: read `destIP` from the context,
fail if absent or not a string, otherwise consult `GetBackend` and map
a nil result to ErrNotFound (no backend available). -/
def destIPBackend (s : BStorage) (ctxDestIP : Option CtxVal) : GoResult (Except SelErr Nat) :=
  match ctxDestIP with
  | none => .ok (.error .noDestIP)
  | some .nonString => .ok (.error .typeAssertFailed)
  | some (.strVal aid) =>
    match getBackend s aid with
    | .crash => .crash
    | .ok none => .ok (.error .errNotFound)
    | .ok (some b) => .ok (.ok b)

/-- Model of `DefaultBackendStorage.AddBackend`: if the agent already has the
same conn, return the existing handle unchanged; otherwise append a
new handle; a first handle also appends the agentID to the slice. -/
def addBackend (s : BStorage) (aid : String) (conn : Nat) : BStorage :=
  match alookup aid s.backends with
  | some l =>
    if conn ∈ l then s
    else { s with backends := aset aid (l ++ [conn]) s.backends }
  | none =>
    { backends := aset aid [conn] s.backends, agentIDs := s.agentIDs ++ [aid] }

/-- The removal loop of `RemoveBackend`: iterate over a snapshot of
the handle list with its indices, erasing each index whose conn
matches from the current list.  Go's slice surgery
`append(s[:i], s[i+1:]...)` panics when the stale index exceeds the
current length; that point is unreachable because `AddBackend` never
stores the same conn twice for one agent, so at most one index
matches and `eraseIdx` is exact. -/
def removeConnAux (conn : Nat) : List Nat → Nat → List Nat → List Nat
  | [], _, cur => cur
  | c :: rest, i, cur =>
    removeConnAux conn rest (i + 1) (if c = conn then cur.eraseIdx i else cur)

/-- The whole `for i, c := range backends` removal loop. -/
def removeConnGo (conn : Nat) (l : List Nat) : List Nat := removeConnAux conn l 0 l

/-- Replace the first occurrence of `a` by `b` (the body of the
swap-with-last loop before truncation). -/
def replaceFirst (a b : String) : List String → List String
  | [] => []
  | x :: xs => if x = a then b :: xs else x :: replaceFirst a b xs

/-- The agentIDs swap-with-last removal: overwrite the first
occurrence of `a` with the slice's last element and drop the last
slot; leave the slice alone when `a` is absent. -/
def swapRemove (l : List String) (a : String) : List String :=
  if a ∈ l then (replaceFirst a (l.getLastD "") l).dropLast else l

/-- Model of `DefaultBackendStorage.RemoveBackend`: drop the matching handle;
when the agent's list becomes empty, delete the agent from the map and
swap-remove it from the agentIDs slice. -/
def removeBackend (s : BStorage) (aid : String) (conn : Nat) : BStorage :=
  match alookup aid s.backends with
  | none => s
  | some l =>
    let l2 := removeConnGo conn l
    if l2.isEmpty then
      { backends := adel aid s.backends, agentIDs := swapRemove s.agentIDs aid }
    else { s with backends := aset aid l2 s.backends }

/-- Model of `DefaultBackendStorage.NumBackends`: the size of the map. -/
def numBackends (s : BStorage) : Nat := s.backends.length

/-- One registration or deregistration call against the storage. -/
inductive BOp
  | add (aid : String) (conn : Nat)
  | remove (aid : String) (conn : Nat)
deriving DecidableEq

def applyBOp (s : BStorage) (op : BOp) : BStorage :=
  match op with
  | .add aid conn => addBackend s aid conn
  | .remove aid conn => removeBackend s aid conn

/-- The storage reached by a call sequence starting from a fresh
`NewDefaultBackendStorage()`. -/
def runStorage (ops : List BOp) : BStorage := ops.foldl applyBOp emptyStorage

/-! ### Further association list facts used by the storage proofs -/

theorem keys_aset_present {K V : Type} [DecidableEq K] {k : K} {v0 : V} (v : V)
    {l : List (K × V)} (h : alookup k l = some v0) :
    (aset k v l).map Prod.fst = l.map Prod.fst := by
  induction l with
  | nil => simp [alookup] at h
  | cons hd tl ih =>
    obtain ⟨k1, v1⟩ := hd
    by_cases h1 : k1 = k
    · subst h1
      rw [aset_cons_pos]
      simp
    · rw [alookup_cons_neg _ _ h1] at h
      rw [aset_cons_neg _ _ _ h1]
      simp [ih h]

theorem keys_aset_absent {K V : Type} [DecidableEq K] {k : K} (v : V)
    {l : List (K × V)} (h : alookup k l = none) :
    (aset k v l).map Prod.fst = l.map Prod.fst ++ [k] := by
  induction l with
  | nil => simp [aset]
  | cons hd tl ih =>
    obtain ⟨k1, v1⟩ := hd
    by_cases h1 : k1 = k
    · subst h1
      rw [alookup_cons_pos] at h
      exact absurd h (by simp)
    · rw [alookup_cons_neg _ _ h1] at h
      rw [aset_cons_neg _ _ _ h1]
      simp [ih h]

theorem keys_adel_nodup {K V : Type} [DecidableEq K] (k : K) {l : List (K × V)}
    (h : (l.map Prod.fst).Nodup) :
    (adel k l).map Prod.fst = (l.map Prod.fst).erase k := by
  induction l with
  | nil => simp [adel]
  | cons hd tl ih =>
    obtain ⟨k1, v1⟩ := hd
    simp only [List.map_cons, List.nodup_cons] at h
    by_cases h1 : k1 = k
    · subst h1
      rw [adel_cons_pos, adel_of_alookup_none (alookup_eq_none.mpr h.1),
        List.map_cons, List.erase_cons_head]
    · rw [adel_cons_neg _ _ h1, List.map_cons, List.map_cons, List.erase_cons, ih h.2]
      simp [h1]

/-! ### Behaviour of the RemoveBackend loop and the swap-remove -/

theorem removeConnAux_not_mem {conn : Nat} {snap : List Nat} (h : conn ∉ snap) :
    ∀ i cur, removeConnAux conn snap i cur = cur := by
  induction snap with
  | nil => intro i cur; rfl
  | cons c rest ih =>
    intro i cur
    have hc : c ≠ conn := by
      intro hh
      exact h (hh ▸ List.mem_cons_self c rest)
    rw [removeConnAux, if_neg hc]
    exact ih (fun hh => h (List.mem_cons_of_mem _ hh)) _ _

theorem removeConnAux_append {conn : Nat} {pre : List Nat} (h : conn ∉ pre) :
    ∀ (rest : List Nat) (i : Nat) (cur : List Nat),
      removeConnAux conn (pre ++ rest) i cur = removeConnAux conn rest (i + pre.length) cur := by
  induction pre with
  | nil =>
    intro rest i cur
    simp
  | cons c pre2 ih =>
    intro rest i cur
    have hc : c ≠ conn := by
      intro hh
      exact h (hh ▸ List.mem_cons_self c pre2)
    rw [List.cons_append, removeConnAux, if_neg hc,
      ih (fun hh => h (List.mem_cons_of_mem _ hh))]
    simp only [List.length_cons]
    have harith : i + 1 + pre2.length = i + (pre2.length + 1) := by omega
    rw [harith]

theorem eraseIdx_append_mid (pre post : List Nat) (x : Nat) :
    (pre ++ x :: post).eraseIdx pre.length = pre ++ post := by
  induction pre with
  | nil => simp
  | cons a pre2 ih => simp [List.eraseIdx, ih]

theorem removeConnGo_eq_erase {conn : Nat} {l : List Nat} (h : l.Nodup) :
    removeConnGo conn l = l.erase conn := by
  by_cases hm : conn ∈ l
  · obtain ⟨pre, post, rfl⟩ := List.append_of_mem hm
    have hsplit := List.nodup_append.mp h
    have hpre : conn ∉ pre := fun hh => hsplit.2.2 hh (List.mem_cons_self conn post)
    have hpost : conn ∉ post := (List.nodup_cons.mp hsplit.2.1).1
    rw [removeConnGo, removeConnAux_append hpre, removeConnAux, if_pos rfl,
      removeConnAux_not_mem hpost]
    simp only [Nat.zero_add]
    rw [eraseIdx_append_mid, List.erase_append_right _ hpre, List.erase_cons_head]
  · rw [removeConnGo, removeConnAux_not_mem hm, List.erase_of_not_mem hm]

theorem replaceFirst_append {a : String} (b : String) {pre : List String}
    (h : a ∉ pre) (post : List String) :
    replaceFirst a b (pre ++ a :: post) = pre ++ b :: post := by
  induction pre with
  | nil => simp [replaceFirst]
  | cons x pre2 ih =>
    have hx : x ≠ a := by
      intro hh
      exact h (hh ▸ List.mem_cons_self x pre2)
    rw [List.cons_append, replaceFirst, if_neg hx,
      ih (fun hh => h (List.mem_cons_of_mem _ hh))]
    rfl

theorem getLastD_concat_str (z : String) :
    ∀ (l : List String) (d : String), (l ++ [z]).getLastD d = z := by
  intro l
  induction l with
  | nil =>
    intro d
    rfl
  | cons x xs ih =>
    intro d
    rw [List.cons_append, List.getLastD_cons]
    exact ih x

theorem swapRemove_perm {l : List String} (hnd : l.Nodup) (a : String) :
    (swapRemove l a).Perm (l.erase a) := by
  by_cases hm : a ∈ l
  · obtain ⟨pre, post, rfl⟩ := List.append_of_mem hm
    have hsplit := List.nodup_append.mp hnd
    have hpre : a ∉ pre := fun hh => hsplit.2.2 hh (List.mem_cons_self a post)
    rw [swapRemove, if_pos hm, List.erase_append_right _ hpre, List.erase_cons_head]
    rcases post.eq_nil_or_concat with rfl | ⟨q, z, hqz⟩
    · have hlast : (pre ++ [a]).getLastD "" = a := getLastD_concat_str a pre ""
      rw [hlast, replaceFirst_append _ hpre, List.dropLast_concat]
      simp
    · rw [List.concat_eq_append] at hqz
      subst hqz
      have hlast : (pre ++ a :: (q ++ [z])).getLastD "" = z := by
        rw [show pre ++ a :: (q ++ [z]) = (pre ++ a :: q) ++ [z] by simp]
        exact getLastD_concat_str z (pre ++ a :: q) ""
      rw [hlast, replaceFirst_append _ hpre,
        show pre ++ z :: (q ++ [z]) = (pre ++ z :: q) ++ [z] by simp,
        List.dropLast_concat]
      exact List.Perm.append_left pre ((List.perm_append_singleton z q).symm)
  · rw [swapRemove, if_neg hm, List.erase_of_not_mem hm]

/-! ### The backend storage invariant -/

/-- The invariant maintained by the storage: map keys are distinct,
the agentIDs slice holds exactly the keys, per-agent handle lists hold
distinct conns and are never empty. -/
structure StorageInv (s : BStorage) : Prop where
  keysNodup : (s.backends.map Prod.fst).Nodup
  agentsPerm : s.agentIDs.Perm (s.backends.map Prod.fst)
  connsNodup : ∀ p ∈ s.backends, List.Nodup p.2
  nonEmpty : ∀ p ∈ s.backends, p.2 ≠ []

theorem storageInv_empty : StorageInv emptyStorage := by
  refine ⟨?_, ?_, ?_, ?_⟩ <;> simp [emptyStorage]

theorem storageInv_add {s : BStorage} (h : StorageInv s) (aid : String) (conn : Nat) :
    StorageInv (addBackend s aid conn) := by
  unfold addBackend
  cases hl : alookup aid s.backends with
  | some l =>
    by_cases hc : conn ∈ l
    · simpa [hc] using h
    · simp only [hc, if_false]
      have hmem : (aid, l) ∈ s.backends := alookup_mem hl
      refine ⟨?_, ?_, ?_, ?_⟩
      · rw [keys_aset_present _ hl]
        exact h.keysNodup
      · rw [keys_aset_present _ hl]
        exact h.agentsPerm
      · intro p hp
        rcases mem_aset hp with rfl | hp
        · have hlnd := h.connsNodup _ hmem
          refine List.nodup_append.mpr ⟨hlnd, List.nodup_singleton conn, ?_⟩
          intro x hx hx1
          rcases List.mem_singleton.mp hx1 with rfl
          exact hc hx
        · exact h.connsNodup _ hp
      · intro p hp
        rcases mem_aset hp with rfl | hp
        · simp
        · exact h.nonEmpty _ hp
  | none =>
    have hnot : aid ∉ s.backends.map Prod.fst := alookup_eq_none.mp hl
    refine ⟨?_, ?_, ?_, ?_⟩
    · rw [keys_aset_absent _ hl]
      refine List.Nodup.append h.keysNodup (List.nodup_singleton aid) ?_
      intro x hx hx1
      rcases List.mem_singleton.mp hx1 with rfl
      exact hnot hx
    · rw [keys_aset_absent _ hl]
      exact h.agentsPerm.append_right [aid]
    · intro p hp
      rcases mem_aset hp with rfl | hp
      · exact List.nodup_singleton conn
      · exact h.connsNodup _ hp
    · intro p hp
      rcases mem_aset hp with rfl | hp
      · simp
      · exact h.nonEmpty _ hp

theorem storageInv_remove {s : BStorage} (h : StorageInv s) (aid : String) (conn : Nat) :
    StorageInv (removeBackend s aid conn) := by
  unfold removeBackend
  cases hl : alookup aid s.backends with
  | none => exact h
  | some l =>
    dsimp only
    have hmem : (aid, l) ∈ s.backends := alookup_mem hl
    have hl2 : removeConnGo conn l = l.erase conn :=
      removeConnGo_eq_erase (h.connsNodup _ hmem)
    by_cases he : (removeConnGo conn l).isEmpty
    · rw [if_pos he]
      have hagNodup : s.agentIDs.Nodup :=
        (List.Perm.nodup_iff h.agentsPerm).mpr h.keysNodup
      refine ⟨?_, ?_, ?_, ?_⟩
      · rw [keys_adel_nodup aid h.keysNodup]
        exact h.keysNodup.erase aid
      · rw [keys_adel_nodup aid h.keysNodup]
        exact (swapRemove_perm hagNodup aid).trans (h.agentsPerm.erase aid)
      · intro p hp
        exact h.connsNodup _ (mem_adel.mp hp).1
      · intro p hp
        exact h.nonEmpty _ (mem_adel.mp hp).1
    · rw [if_neg he]
      have hne : removeConnGo conn l ≠ [] := by
        intro hh
        rw [hh] at he
        exact he rfl
      refine ⟨?_, ?_, ?_, ?_⟩
      · rw [keys_aset_present _ hl]
        exact h.keysNodup
      · rw [keys_aset_present _ hl]
        exact h.agentsPerm
      · intro p hp
        rcases mem_aset hp with rfl | hp
        · rw [hl2]
          exact (h.connsNodup _ hmem).erase conn
        · exact h.connsNodup _ hp
      · intro p hp
        rcases mem_aset hp with rfl | hp
        · exact hne
        · exact h.nonEmpty _ hp

theorem storageInv_run (ops : List BOp) : StorageInv (runStorage ops) := by
  rw [runStorage]
  have hgen : ∀ s : BStorage, StorageInv s → StorageInv (ops.foldl applyBOp s) := by
    induction ops with
    | nil => exact fun s hs => hs
    | cons op rest ih =>
      intro s hs
      rw [List.foldl_cons]
      refine ih _ ?_
      cases op with
      | add aid conn => exact storageInv_add hs aid conn
      | remove aid conn => exact storageInv_remove hs aid conn
  exact hgen emptyStorage storageInv_empty

/-- C5: after any sequence of AddBackend and RemoveBackend calls
starting from a fresh storage, NumBackends equals the number of
distinct registered agentIDs, the agentIDs slice holds exactly the
keys of the backends map (each exactly once), and every registered
agentID maps to a non-empty handle list. -/
theorem storage_sequence_invariant (ops : List BOp) :
    numBackends (runStorage ops)
        = (((runStorage ops).backends.map Prod.fst).dedup).length
    ∧ ((runStorage ops).backends.map Prod.fst).Nodup
    ∧ (runStorage ops).agentIDs.Nodup
    ∧ (∀ a, a ∈ (runStorage ops).agentIDs ↔ a ∈ (runStorage ops).backends.map Prod.fst)
    ∧ (∀ a l, alookup a (runStorage ops).backends = some l → l ≠ []) := by
  have h := storageInv_run ops
  refine ⟨?_, h.keysNodup, ?_, ?_, ?_⟩
  · rw [List.dedup_eq_self.mpr h.keysNodup, List.length_map, numBackends]
  · exact (List.Perm.nodup_iff h.agentsPerm).mpr h.keysNodup
  · exact fun a => h.agentsPerm.mem_iff
  · intro a l hal
    exact h.nonEmpty _ (alookup_mem hal)

/-- Witness for C5 at a concrete call sequence. -/
theorem storage_sequence_invariant_witness :
    numBackends (runStorage [BOp.add "A" 1, BOp.add "B" 2, BOp.add "A" 3, BOp.remove "A" 1])
      = (((runStorage [BOp.add "A" 1, BOp.add "B" 2, BOp.add "A" 3,
          BOp.remove "A" 1]).backends.map Prod.fst).dedup).length :=
  (storage_sequence_invariant [BOp.add "A" 1, BOp.add "B" 2, BOp.add "A" 3,
    BOp.remove "A" 1]).1

/-- C1 (code bug exhibit): with one agent registered, `GetBackend` on
an unregistered agentID indexes the nil slice at 0 and panics instead
of returning absence, and the destination-affinity `Backend(ctx)`
therefore panics instead of returning the no-backend-available error;
only with an entirely empty storage does the absence path work. -/
theorem getBackend_unregistered_agent_crash :
    getBackend { backends := [("agentA", [1])], agentIDs := ["agentA"] } "agentB" = .crash
    ∧ destIPBackend { backends := [("agentA", [1])], agentIDs := ["agentA"] }
        (some (.strVal "agentB")) = .crash
    ∧ getBackend { backends := [("agentA", [1])], agentIDs := ["agentA"] } "agentA"
        = .ok (some 1)
    ∧ getBackend emptyStorage "agentB" = .ok none
    ∧ destIPBackend emptyStorage (some (.strVal "agentB"))
        = .ok (.error .errNotFound) := by
  refine ⟨by decide, rfl, by decide, by decide, rfl⟩

/-- C6: in http-connect mode the send adapter writes exactly the DATA
payload to the hijacked socket, closes the socket on CLOSE_RSP and on
DIAL_RSP carrying a non-empty error, succeeds as a no-op on an
error-free DIAL_RSP, and rejects every other packet type; a record
whose mode is neither grpc nor http-connect is rejected for every
packet. -/
theorem http_connect_send_adapter :
    (∀ cid bytes, pccSend "http-connect" (.data cid bytes) = .writeBytes bytes)
    ∧ (∀ cid, pccSend "http-connect" (.closeRsp cid) = .closeSocket)
    ∧ (∀ r cid e, e ≠ "" → pccSend "http-connect" (.dialRsp r cid e) = .closeSocket)
    ∧ (∀ r cid, pccSend "http-connect" (.dialRsp r cid "") = .noopOk)
    ∧ (∀ pr a r, pccSend "http-connect" (.dialReq pr a r) = .errUnsupportedType)
    ∧ (∀ cid, pccSend "http-connect" (.closeReq cid) = .errUnsupportedType)
    ∧ (∀ m p, m ≠ "grpc" → m ≠ "http-connect" → pccSend m p = .errUnknownMode) := by
  refine ⟨?_, ?_, ?_, ?_, ?_, ?_, ?_⟩
  · intro cid bytes
    simp [pccSend]
  · intro cid
    simp [pccSend]
  · intro r cid e he
    simp [pccSend, he]
  · intro r cid
    simp [pccSend]
  · intro pr a r
    simp [pccSend]
  · intro cid
    simp [pccSend]
  · intro m p hm1 hm2
    simp [pccSend, hm1, hm2]

/-- Witness for C6 at concrete packets and modes. -/
theorem http_connect_send_adapter_witness :
    pccSend "http-connect" (.dialRsp 7 0 "unreachable") = .closeSocket
    ∧ pccSend "tcp" (.data 1 [104, 105]) = .errUnknownMode :=
  ⟨http_connect_send_adapter.2.2.1 7 0 "unreachable" (by decide),
    http_connect_send_adapter.2.2.2.2.2.2 "tcp" (.data 1 [104, 105])
      (by decide) (by decide)⟩

/-! ## Frontend registry (server.go)

The two-level map `frontends[agentID][connID] = record`, with the
four operations `addFrontend`, `removeFrontend`, `getFrontend` and
`getFrontendsForBackendConn`. -/

abbrev FrontendMap := List (String × List (Int × Record))

/-- Model of `ProxyServer.addFrontend`: create the inner map when the agent is
new, then assign under connID. -/
def addFrontend (aid : String) (cid : Int) (r : Record) (fr : FrontendMap) : FrontendMap :=
  aset aid (aset cid r ((alookup aid fr).getD [])) fr

/-- Model of `ProxyServer.removeFrontend`: missing keys only warn; removing
the last inner entry also deletes the agent entry. -/
def removeFrontend (aid : String) (cid : Int) (fr : FrontendMap) : FrontendMap :=
  match alookup aid fr with
  | none => fr
  | some inner =>
    match alookup cid inner with
    | none => fr
    | some _ =>
      let inner2 := adel cid inner
      if inner2.isEmpty then adel aid fr else aset aid inner2 fr

/-- Model of `ProxyServer.getFrontend` (the not-found error collapsed to
`none`). -/
def getFrontend (aid : String) (cid : Int) (fr : FrontendMap) : Option Record :=
  match alookup aid fr with
  | none => none
  | some inner => alookup cid inner

/-- Model of `ProxyServer.getFrontendsForBackendConn`: every record under the
agentID whose backend field is the given handle (handle identity);
a missing agentID yields the empty list, as the caller drops the
error. -/
def getFrontendsForBackendConn (aid : String) (b : Nat) (fr : FrontendMap) : List Record :=
  match alookup aid fr with
  | none => []
  | some inner => (inner.filter (fun e => e.2.backendId == b)).map Prod.snd

/-- The agent-disconnect sweep in `serveRecvBackend`'s deferred block:
for each record routed through the disconnected handle, remove it from
the registry and synthesize a CLOSE_RSP carrying its connID toward its
frontend. -/
def backendCleanup (aid : String) (b : Nat) (fr : FrontendMap) :
    FrontendMap × List (Record × Packet) :=
  (getFrontendsForBackendConn aid b fr).foldl
    (fun acc r =>
      (removeFrontend aid r.connID acc.1, acc.2 ++ [(r, Packet.closeRsp r.connID)]))
    (fr, [])

/-- Well-formedness of the registry as the server maintains it: outer
and inner keys are distinct, each record is filed under its own
connID, and inner maps are never empty. -/
structure RegistryWF (fr : FrontendMap) : Prop where
  outerNodup : (fr.map Prod.fst).Nodup
  innerNodup : ∀ p ∈ fr, ((p.2 : List (Int × Record)).map Prod.fst).Nodup
  connConsistent : ∀ p ∈ fr, ∀ q ∈ p.2, (q.2 : Record).connID = q.1
  innerNonEmpty : ∀ p ∈ fr, p.2 ≠ []

/-! ### Unfolding and routing lemmas for the cleanup fold -/

theorem cleanup_fold_pair (aid : String) (rs : List Record) :
    ∀ (f0 : FrontendMap) (acc : List (Record × Packet)),
      rs.foldl
          (fun acc r =>
            (removeFrontend aid r.connID acc.1, acc.2 ++ [(r, Packet.closeRsp r.connID)]))
          (f0, acc)
        = (rs.foldl (fun f r => removeFrontend aid r.connID f) f0,
            acc ++ rs.map (fun r => (r, Packet.closeRsp r.connID))) := by
  induction rs with
  | nil =>
    intro f0 acc
    simp
  | cons r rest ih =>
    intro f0 acc
    rw [List.foldl_cons, ih, List.foldl_cons, List.map_cons]
    simp

/-- Folding removals over connID keys. -/
def removeAllConn (aid : String) (cids : List Int) (fr : FrontendMap) : FrontendMap :=
  cids.foldl (fun f c => removeFrontend aid c f) fr

theorem removeAllConn_cons (aid : String) (c : Int) (rest : List Int) (fr : FrontendMap) :
    removeAllConn aid (c :: rest) fr = removeAllConn aid rest (removeFrontend aid c fr) := rfl

theorem backendCleanup_fst (aid : String) (b : Nat) (fr : FrontendMap) :
    (backendCleanup aid b fr).1
      = removeAllConn aid ((getFrontendsForBackendConn aid b fr).map Record.connID) fr := by
  rw [backendCleanup, cleanup_fold_pair, removeAllConn, List.foldl_map]

theorem backendCleanup_snd (aid : String) (b : Nat) (fr : FrontendMap) :
    (backendCleanup aid b fr).2
      = (getFrontendsForBackendConn aid b fr).map (fun r => (r, Packet.closeRsp r.connID)) := by
  rw [backendCleanup, cleanup_fold_pair, List.nil_append]

theorem removeFrontend_other {aid aid2 : String} (cid : Int) (fr : FrontendMap)
    (h : aid2 ≠ aid) : alookup aid2 (removeFrontend aid cid fr) = alookup aid2 fr := by
  unfold removeFrontend
  cases h1 : alookup aid fr with
  | none => rfl
  | some inner =>
    dsimp only
    cases h2 : alookup cid inner with
    | none => rfl
    | some r =>
      dsimp only
      by_cases he : (adel cid inner).isEmpty
      · rw [if_pos he]
        exact alookup_adel_ne _ h
      · rw [if_neg he]
        exact alookup_aset_ne _ _ h

theorem removeFrontend_missing (aid : String) (cid : Int) (fr : FrontendMap)
    (h : alookup aid fr = none) : removeFrontend aid cid fr = fr := by
  unfold removeFrontend
  rw [h]

theorem removeAllConn_other {aid aid2 : String} (h : aid2 ≠ aid) (cids : List Int) :
    ∀ fr, alookup aid2 (removeAllConn aid cids fr) = alookup aid2 fr := by
  induction cids with
  | nil => intro fr; rfl
  | cons c rest ih =>
    intro fr
    rw [removeAllConn_cons, ih, removeFrontend_other _ _ h]

theorem removeAllConn_missing (aid : String) (cids : List Int) :
    ∀ fr, alookup aid fr = none → alookup aid (removeAllConn aid cids fr) = none := by
  induction cids with
  | nil => intro fr h; exact h
  | cons c rest ih =>
    intro fr h
    rw [removeAllConn_cons, removeFrontend_missing _ _ _ h]
    exact ih fr h

/-- The inner map after deleting a list of connIDs. -/
def innerAfter (cids : List Int) (inner : List (Int × Record)) : List (Int × Record) :=
  cids.foldl (fun l c => adel c l) inner

theorem innerAfter_cons (c : Int) (rest : List Int) (inner : List (Int × Record)) :
    innerAfter (c :: rest) inner = innerAfter rest (adel c inner) := rfl

theorem innerAfter_nil_inner (cids : List Int) : innerAfter cids [] = [] := by
  induction cids with
  | nil => rfl
  | cons c rest ih =>
    rw [innerAfter_cons]
    exact ih

theorem mem_innerAfter {cids : List Int} :
    ∀ {inner : List (Int × Record)} {p : Int × Record},
      p ∈ innerAfter cids inner ↔ p ∈ inner ∧ p.1 ∉ cids := by
  induction cids with
  | nil =>
    intro inner p
    simp [innerAfter]
  | cons c rest ih =>
    intro inner p
    rw [innerAfter_cons, ih, mem_adel]
    constructor
    · rintro ⟨⟨hmem, hne⟩, hni⟩
      refine ⟨hmem, ?_⟩
      intro hc
      rcases List.mem_cons.mp hc with rfl | hc
      · exact hne rfl
      · exact hni hc
    · rintro ⟨hmem, hni⟩
      refine ⟨⟨hmem, fun hh => hni (hh ▸ List.mem_cons_self c rest)⟩, ?_⟩
      intro hc
      exact hni (List.mem_cons_of_mem _ hc)

theorem innerAfter_keys_nodup (cids : List Int) :
    ∀ {inner : List (Int × Record)}, (inner.map Prod.fst).Nodup →
      ((innerAfter cids inner).map Prod.fst).Nodup := by
  induction cids with
  | nil => intro inner h; exact h
  | cons c rest ih =>
    intro inner h
    rw [innerAfter_cons]
    exact ih (keys_nodup_adel c h)

theorem removeAllConn_self (aid : String) (cids : List Int) :
    ∀ (fr : FrontendMap) (inner : List (Int × Record)),
      (fr.map Prod.fst).Nodup →
      alookup aid fr = some inner → inner ≠ [] →
      alookup aid (removeAllConn aid cids fr)
        = (if innerAfter cids inner = [] then none else some (innerAfter cids inner)) := by
  induction cids with
  | nil =>
    intro fr inner hnd hl hne
    rw [removeAllConn, List.foldl_nil, hl, innerAfter, List.foldl_nil, if_neg hne]
  | cons c rest ih =>
    intro fr inner hnd hl hne
    rw [removeAllConn_cons, innerAfter_cons]
    cases h2 : alookup c inner with
    | none =>
      have hrf : removeFrontend aid c fr = fr := by
        unfold removeFrontend
        rw [hl]
        dsimp only
        rw [h2]
      rw [hrf, adel_of_alookup_none h2]
      exact ih fr inner hnd hl hne
    | some r =>
      by_cases hie : (adel c inner).isEmpty
      · have hrf : removeFrontend aid c fr = adel aid fr := by
          unfold removeFrontend
          rw [hl]
          dsimp only
          rw [h2]
          dsimp only
          rw [if_pos hie]
        have hinner : adel c inner = [] := by
          cases hh : adel c inner with
          | nil => rfl
          | cons x xs =>
            rw [hh] at hie
            simp [List.isEmpty] at hie
        rw [hrf, hinner, innerAfter_nil_inner, if_pos rfl]
        exact removeAllConn_missing aid rest _ (alookup_adel_self aid fr)
      · have hrf : removeFrontend aid c fr = aset aid (adel c inner) fr := by
          unfold removeFrontend
          rw [hl]
          dsimp only
          rw [h2]
          dsimp only
          rw [if_neg hie]
        have hne2 : adel c inner ≠ [] := by
          intro hh
          rw [hh] at hie
          exact hie rfl
        rw [hrf]
        exact ih _ _ (keys_nodup_aset _ _ hnd) (alookup_aset_self _ _ _) hne2

theorem getFrontend_cleanup_other {aid aid2 : String} (h : aid2 ≠ aid) (b : Nat)
    (cid : Int) (fr : FrontendMap) :
    getFrontend aid2 cid (backendCleanup aid b fr).1 = getFrontend aid2 cid fr := by
  rw [getFrontend, getFrontend, backendCleanup_fst, removeAllConn_other h]

/-- C4: when a backend stream ends, the cleanup removes from the
frontend registry exactly those records under the disconnected
agentID whose backend field is the disconnected handle, leaving
records bound to other handles (and other agents) untouched, and it
synthesizes one CLOSE_RSP carrying the record's connID for exactly the
removed records. -/
theorem agent_disconnect_cleanup (aid : String) (b : Nat) (fr : FrontendMap)
    (hwf : RegistryWF fr) :
    (∀ aid2 cid r, getFrontend aid2 cid (backendCleanup aid b fr).1 = some r
        ↔ getFrontend aid2 cid fr = some r ∧ ¬(aid2 = aid ∧ r.backendId = b))
    ∧ (∀ r, r ∈ getFrontendsForBackendConn aid b fr
        ↔ ∃ cid, getFrontend aid cid fr = some r ∧ r.backendId = b)
    ∧ (backendCleanup aid b fr).2
        = (getFrontendsForBackendConn aid b fr).map (fun r => (r, Packet.closeRsp r.connID)) := by
  refine ⟨?_, ?_, backendCleanup_snd aid b fr⟩
  · intro aid2 cid r
    by_cases haid : aid2 = aid
    · subst haid
      cases h0 : alookup aid2 fr with
      | none =>
        have hcids : getFrontendsForBackendConn aid2 b fr = [] := by
          rw [getFrontendsForBackendConn, h0]
        have hfst : (backendCleanup aid2 b fr).1 = fr := by
          rw [backendCleanup_fst, hcids]
          rfl
        rw [hfst]
        have hnone : getFrontend aid2 cid fr = none := by
          rw [getFrontend, h0]
        rw [hnone]
        simp
      | some inner0 =>
        have hmem0 : (aid2, inner0) ∈ fr := alookup_mem h0
        have hinnd : (inner0.map Prod.fst).Nodup := hwf.innerNodup _ hmem0
        have hne0 : inner0 ≠ [] := hwf.innerNonEmpty _ hmem0
        have hcids : (getFrontendsForBackendConn aid2 b fr).map Record.connID
            = (inner0.filter (fun e => e.2.backendId == b)).map Prod.fst := by
          rw [getFrontendsForBackendConn, h0, List.map_map]
          apply List.map_congr_left
          intro e he
          have hc := hwf.connConsistent _ hmem0 e (List.mem_of_mem_filter he)
          simpa using hc
        have hkey : ∀ {cid2 : Int} {r2 : Record}, (cid2, r2) ∈ inner0 →
            (cid2 ∈ (inner0.filter (fun e => e.2.backendId == b)).map Prod.fst
              ↔ r2.backendId = b) := by
          intro cid2 r2 hm
          constructor
          · intro hc
            simp only [List.mem_map] at hc
            obtain ⟨e, he, hek⟩ := hc
            have hein : e ∈ inner0 := List.mem_of_mem_filter he
            have hP := List.of_mem_filter he
            have h1 : alookup cid2 inner0 = some e.2 := by
              have : (cid2, e.2) ∈ inner0 := by
                have : (e.1, e.2) ∈ inner0 := by simpa using hein
                rwa [hek] at this
              exact mem_alookup hinnd this
            have h2 : alookup cid2 inner0 = some r2 := mem_alookup hinnd hm
            rw [h1] at h2
            injection h2 with h3
            rw [← h3]
            simpa using hP
          · intro hb
            refine List.mem_map.mpr ⟨(cid2, r2), ?_, rfl⟩
            exact List.mem_filter.mpr ⟨hm, by simpa using hb⟩
        have hlhs : getFrontend aid2 cid (backendCleanup aid2 b fr).1
            = alookup cid (innerAfter
                ((inner0.filter (fun e => e.2.backendId == b)).map Prod.fst) inner0) := by
          rw [getFrontend, backendCleanup_fst, hcids,
            removeAllConn_self aid2 _ fr inner0 hwf.outerNodup h0 hne0]
          by_cases hia : innerAfter
              ((inner0.filter (fun e => e.2.backendId == b)).map Prod.fst) inner0 = []
          · rw [if_pos hia, hia]
            rfl
          · rw [if_neg hia]
        rw [hlhs]
        constructor
        · intro hL
          have hm := mem_innerAfter.mp (alookup_mem hL)
          refine ⟨?_, ?_⟩
          · rw [getFrontend, h0]
            exact mem_alookup hinnd hm.1
          · rintro ⟨-, hb⟩
            exact hm.2 ((hkey hm.1).mpr hb)
        · rintro ⟨hG, hnb⟩
          rw [getFrontend, h0] at hG
          have hm : (cid, r) ∈ inner0 := alookup_mem hG
          have hni : cid ∉ (inner0.filter (fun e => e.2.backendId == b)).map Prod.fst :=
            fun hc => hnb ⟨rfl, (hkey hm).mp hc⟩
          exact mem_alookup (innerAfter_keys_nodup _ hinnd) (mem_innerAfter.mpr ⟨hm, hni⟩)
    · rw [getFrontend_cleanup_other haid]
      simp [haid]
  · intro r
    cases h0 : alookup aid fr with
    | none =>
      rw [getFrontendsForBackendConn, h0]
      simp only [List.not_mem_nil, false_iff, not_exists, not_and]
      intro cid hG
      rw [getFrontend, h0] at hG
      exact absurd hG (by simp)
    | some inner0 =>
      have hmem0 : (aid, inner0) ∈ fr := alookup_mem h0
      have hinnd : (inner0.map Prod.fst).Nodup := hwf.innerNodup _ hmem0
      rw [getFrontendsForBackendConn, h0]
      constructor
      · intro hr
        simp only [List.mem_map] at hr
        obtain ⟨e, he, rfl⟩ := hr
        have hein : e ∈ inner0 := List.mem_of_mem_filter he
        have hP := List.of_mem_filter he
        refine ⟨e.1, ?_, by simpa using hP⟩
        rw [getFrontend, h0]
        exact mem_alookup hinnd (by simpa using hein)
      · rintro ⟨cid, hG, hb⟩
        rw [getFrontend, h0] at hG
        have hm : (cid, r) ∈ inner0 := alookup_mem hG
        refine List.mem_map.mpr ⟨(cid, r), ?_, rfl⟩
        exact List.mem_filter.mpr ⟨hm, by simpa using hb⟩

/-- Witness for C4 at a concrete registry: agent A holds records 101
and 102 through handle 5 and record 103 through handle 6; handle 5
disconnects. -/
theorem agent_disconnect_cleanup_witness :
    getFrontend "A" 103
        (backendCleanup "A" 5
          [("A", [(101, Record.mk 1 "grpc" 5 101 "A"), (102, Record.mk 2 "grpc" 5 102 "A"),
            (103, Record.mk 3 "grpc" 6 103 "A")])]).1
      = some (Record.mk 3 "grpc" 6 103 "A")
    ∧ (backendCleanup "A" 5
        [("A", [(101, Record.mk 1 "grpc" 5 101 "A"), (102, Record.mk 2 "grpc" 5 102 "A"),
          (103, Record.mk 3 "grpc" 6 103 "A")])]).2
      = [(Record.mk 1 "grpc" 5 101 "A", Packet.closeRsp 101),
          (Record.mk 2 "grpc" 5 102 "A", Packet.closeRsp 102)] := by
  have h := agent_disconnect_cleanup "A" 5
    [("A", [(101, Record.mk 1 "grpc" 5 101 "A"), (102, Record.mk 2 "grpc" 5 102 "A"),
      (103, Record.mk 3 "grpc" 6 103 "A")])]
    (by refine ⟨?_, ?_, ?_, ?_⟩ <;> decide)
  refine ⟨(h.1 "A" 103 (Record.mk 3 "grpc" 6 103 "A")).mpr ⟨by decide, by decide⟩, ?_⟩
  rw [h.2.2]
  decide

/-! ## Server shared state and the backend stream handler
(serveRecvBackend, server.go)

The shared routing state of the ProxyServer: the pending-dial table,
the frontend registry, plus a log of which established-latches have
been closed and a counter giving fresh record identities for the
records the handlers allocate. -/

structure SState where
  pending : List (Int × Record)
  frontends : FrontendMap
  signalled : List Nat
  nextId : Nat
deriving DecidableEq

def initState : SState := { pending := [], frontends := [], signalled := [], nextId := 0 }

/-- The operations that mutate the shared routing state: a gRPC
frontend DIAL_REQ (serveRecvFrontend), an HTTP CONNECT dial
(Tunnel.ServeHTTP), and the backend stream handler's DIAL_RSP, DATA,
CLOSE_RSP and agent-disconnect paths (serveRecvBackend).  `sel` is
the backend manager's answer, `fwdOK`/`sendOK` whether the relevant
send returned without error. -/
inductive SOp
  | grpcDialReq (nonce : Int) (sel : Option Nat)
  | tunnelDial (nonce : Int) (sel : Option Nat) (sendOK : Bool)
  | dialRsp (aid : String) (nonce : Int) (connID : Int) (error : String) (fwdOK : Bool)
  | backendData (aid : String) (connID : Int)
  | backendCloseRsp (aid : String) (connID : Int)
  | agentDisconnect (aid : String) (b : Nat)
deriving DecidableEq

/-- State effect of each operation, mirroring the Go handlers:

* DIAL_REQ with a backend: insert a fresh record (mode grpc, connID
  and agentID still zero-valued) under the nonce; with no backend the
  handler just continues.
* Tunnel dial: same with mode http-connect; a DIAL_REQ send failure
  returns without touching the table further.
* DIAL_RSP: drop if the nonce is unknown; otherwise always remove the
  pending entry; when the response carries an error or the forward to
  the frontend failed, do not promote; otherwise set connID/agentID,
  insert into the registry and close the latch.
* DATA: pure forwarding, no shared-state change.
* CLOSE_RSP: forward and remove the registry entry.
* Agent disconnect: the registry sweep of `backendCleanup`. -/
def applyOp (st : SState) (op : SOp) : SState :=
  match op with
  | .grpcDialReq nonce sel =>
    match sel with
    | none => st
    | some b =>
      { st with
          pending := aset nonce (Record.mk st.nextId "grpc" b 0 "") st.pending,
          nextId := st.nextId + 1 }
  | .tunnelDial nonce sel _ =>
    match sel with
    | none => st
    | some b =>
      { st with
          pending := aset nonce (Record.mk st.nextId "http-connect" b 0 "") st.pending,
          nextId := st.nextId + 1 }
  | .dialRsp aid nonce connID error fwdOK =>
    match alookup nonce st.pending with
    | none => st
    | some r =>
      if (error != "") || !fwdOK then { st with pending := adel nonce st.pending }
      else
        { st with
            pending := adel nonce st.pending,
            frontends := addFrontend aid connID
              { r with connID := connID, agentID := aid } st.frontends,
            signalled := r.rid :: st.signalled }
  | .backendData _ _ => st
  | .backendCloseRsp aid connID =>
    { st with frontends := removeFrontend aid connID st.frontends }
  | .agentDisconnect aid b =>
    { st with frontends := (backendCleanup aid b st.frontends).1 }

def runOps (ops : List SOp) : SState := ops.foldl applyOp initState

theorem getFrontend_addFrontend_self (aid : String) (cid : Int) (r : Record)
    (fr : FrontendMap) : getFrontend aid cid (addFrontend aid cid r fr) = some r := by
  rw [getFrontend, addFrontend, alookup_aset_self]
  exact alookup_aset_self _ _ _

/-- C2: a DIAL_RSP whose nonce is pending always removes the pending
entry; on a response error or a failed forward nothing is added to
the registry and the latch is untouched; otherwise the record gains
the response's connID and the stream's agentID, lands in the registry
under them, and its latch is closed. -/
theorem dial_rsp_handling (st : SState) (aid : String) (nonce connID : Int)
    (error : String) (fwdOK : Bool) (r : Record)
    (hp : alookup nonce st.pending = some r) :
    alookup nonce (applyOp st (.dialRsp aid nonce connID error fwdOK)).pending = none
    ∧ ((error ≠ "" ∨ fwdOK = false) →
        (applyOp st (.dialRsp aid nonce connID error fwdOK)).frontends = st.frontends
        ∧ (applyOp st (.dialRsp aid nonce connID error fwdOK)).signalled = st.signalled)
    ∧ (error = "" → fwdOK = true →
        getFrontend aid connID (applyOp st (.dialRsp aid nonce connID error fwdOK)).frontends
            = some { r with connID := connID, agentID := aid }
        ∧ r.rid ∈ (applyOp st (.dialRsp aid nonce connID error fwdOK)).signalled) := by
  unfold applyOp
  dsimp only
  rw [hp]
  dsimp only
  by_cases hcond : ((error != "") || !fwdOK) = true
  · rw [if_pos hcond]
    refine ⟨alookup_adel_self _ _, fun _ => ⟨rfl, rfl⟩, ?_⟩
    intro herr hfwd
    subst herr
    subst hfwd
    simp at hcond
  · rw [if_neg hcond]
    simp only [Bool.or_eq_true, bne_iff_ne, Bool.not_eq_true', not_or] at hcond
    refine ⟨alookup_adel_self _ _, ?_, ?_⟩
    · intro hor
      exfalso
      rcases hor with herr | hfwd
      · exact hcond.1 herr
      · rw [hfwd] at hcond
        exact absurd hcond.2 (by simp)
    · intro herr hfwd
      exact ⟨getFrontend_addFrontend_self _ _ _ _, List.mem_cons_self _ _⟩

/-- Witness for C2: promote a concrete pending record on an
error-free DIAL_RSP. -/
theorem dial_rsp_handling_witness :
    alookup 7 (applyOp
        { pending := [(7, Record.mk 0 "grpc" 1 0 "")], frontends := [], signalled := [],
          nextId := 1 }
        (.dialRsp "A" 7 101 "" true)).pending = none
    ∧ getFrontend "A" 101 (applyOp
        { pending := [(7, Record.mk 0 "grpc" 1 0 "")], frontends := [], signalled := [],
          nextId := 1 }
        (.dialRsp "A" 7 101 "" true)).frontends = some (Record.mk 0 "grpc" 1 101 "A") := by
  have h := dial_rsp_handling
    { pending := [(7, Record.mk 0 "grpc" 1 0 "")], frontends := [], signalled := [],
      nextId := 1 }
    "A" 7 101 "" true (Record.mk 0 "grpc" 1 0 "") (by decide)
  exact ⟨h.1, (h.2.2 rfl rfl).1⟩

/-! ### Exclusivity of the pending table and the frontend registry -/

/-- Every record object currently filed in the registry. -/
def registryRecords (fr : FrontendMap) : List Record :=
  (fr.map (fun e => e.2.map Prod.snd)).flatten

theorem mem_registryRecords {fr : FrontendMap} {r : Record} :
    r ∈ registryRecords fr ↔ ∃ e ∈ fr, ∃ q ∈ e.2, (q.2 : Record) = r := by
  simp only [registryRecords, List.mem_flatten, List.mem_map]
  constructor
  · rintro ⟨l, ⟨e, he, rfl⟩, hr⟩
    obtain ⟨q, hq, rfl⟩ := List.mem_map.mp hr
    exact ⟨e, he, q, hq, rfl⟩
  · rintro ⟨e, he, q, hq, rfl⟩
    exact ⟨e.2.map Prod.snd, ⟨e, he, rfl⟩, List.mem_map_of_mem Prod.snd hq⟩

theorem registryRecords_addFrontend {aid : String} {cid : Int} {r : Record}
    {fr : FrontendMap} {r2 : Record}
    (h : r2 ∈ registryRecords (addFrontend aid cid r fr)) :
    r2 = r ∨ r2 ∈ registryRecords fr := by
  rw [mem_registryRecords] at h
  obtain ⟨e, he, q, hq, rfl⟩ := h
  rw [addFrontend] at he
  rcases mem_aset he with rfl | he
  · rcases mem_aset hq with rfl | hq
    · exact Or.inl rfl
    · cases h0 : alookup aid fr with
      | none =>
        rw [h0] at hq
        simp at hq
      | some inner0 =>
        rw [h0] at hq
        simp only [Option.getD_some] at hq
        exact Or.inr (mem_registryRecords.mpr ⟨(aid, inner0), alookup_mem h0, q, hq, rfl⟩)
  · exact Or.inr (mem_registryRecords.mpr ⟨e, he, q, hq, rfl⟩)

theorem registryRecords_removeFrontend {aid : String} {cid : Int} {fr : FrontendMap}
    {r2 : Record} (h : r2 ∈ registryRecords (removeFrontend aid cid fr)) :
    r2 ∈ registryRecords fr := by
  unfold removeFrontend at h
  cases h0 : alookup aid fr with
  | none =>
    rw [h0] at h
    exact h
  | some inner =>
    rw [h0] at h
    dsimp only at h
    cases h1 : alookup cid inner with
    | none =>
      rw [h1] at h
      exact h
    | some r3 =>
      rw [h1] at h
      dsimp only at h
      by_cases hie : (adel cid inner).isEmpty
      · rw [if_pos hie] at h
        rw [mem_registryRecords] at h ⊢
        obtain ⟨e, he, q, hq, rfl⟩ := h
        exact ⟨e, (mem_adel.mp he).1, q, hq, rfl⟩
      · rw [if_neg hie] at h
        rw [mem_registryRecords] at h ⊢
        obtain ⟨e, he, q, hq, rfl⟩ := h
        rcases mem_aset he with rfl | he
        · exact ⟨(aid, inner), alookup_mem h0, q, (mem_adel.mp hq).1, rfl⟩
        · exact ⟨e, he, q, hq, rfl⟩

theorem registryRecords_removeAllConn {aid : String} (cids : List Int) :
    ∀ {fr : FrontendMap} {r2 : Record},
      r2 ∈ registryRecords (removeAllConn aid cids fr) → r2 ∈ registryRecords fr := by
  induction cids with
  | nil =>
    intro fr r2 h
    exact h
  | cons c rest ih =>
    intro fr r2 h
    rw [removeAllConn_cons] at h
    exact registryRecords_removeFrontend (ih h)

theorem registryRecords_backendCleanup {aid : String} {b : Nat} {fr : FrontendMap}
    {r2 : Record} (h : r2 ∈ registryRecords (backendCleanup aid b fr).1) :
    r2 ∈ registryRecords fr := by
  rw [backendCleanup_fst] at h
  exact registryRecords_removeAllConn _ h

/-- The inductive invariant behind C3: pending record ids are below
the allocation counter and identify their entry uniquely, registry
record ids are below the counter, and no record id is simultaneously
pending and registered. -/
structure SInv (st : SState) : Prop where
  pendingBound : ∀ p ∈ st.pending, (p.2 : Record).rid < st.nextId
  pendingInj : ∀ p ∈ st.pending, ∀ q ∈ st.pending,
    (p.2 : Record).rid = (q.2 : Record).rid → p = q
  regBound : ∀ r ∈ registryRecords st.frontends, r.rid < st.nextId
  noOverlap : ∀ p ∈ st.pending, ∀ r ∈ registryRecords st.frontends,
    (p.2 : Record).rid ≠ r.rid

theorem sinv_init : SInv initState := by
  refine ⟨?_, ?_, ?_, ?_⟩ <;> simp [initState, registryRecords]

theorem sinv_addPending {st : SState} (h : SInv st) (nonce : Int) (mode : String) (b : Nat) :
    SInv { st with
        pending := aset nonce (Record.mk st.nextId mode b 0 "") st.pending,
        nextId := st.nextId + 1 } := by
  refine ⟨?_, ?_, ?_, ?_⟩
  · intro p hp
    rcases mem_aset hp with rfl | hp
    · exact Nat.lt_succ_self _
    · exact Nat.lt_succ_of_lt (h.pendingBound p hp)
  · intro p hp q hq heq
    rcases mem_aset hp with rfl | hp
    · rcases mem_aset hq with rfl | hq
      · rfl
      · exact absurd (heq ▸ h.pendingBound q hq) (Nat.lt_irrefl _)
    · rcases mem_aset hq with rfl | hq
      · exact absurd (heq ▸ h.pendingBound p hp) (Nat.lt_irrefl _)
      · exact h.pendingInj p hp q hq heq
  · intro r hr
    exact Nat.lt_succ_of_lt (h.regBound r hr)
  · intro p hp r hr
    rcases mem_aset hp with rfl | hp
    · exact ne_of_gt (h.regBound r hr)
    · exact h.noOverlap p hp r hr

theorem sinv_applyOp {st : SState} (h : SInv st) (op : SOp) : SInv (applyOp st op) := by
  cases op with
  | grpcDialReq nonce sel =>
    cases sel with
    | none => exact h
    | some b => exact sinv_addPending h nonce "grpc" b
  | tunnelDial nonce sel sendOK =>
    cases sel with
    | none => exact h
    | some b => exact sinv_addPending h nonce "http-connect" b
  | dialRsp aid nonce connID error fwdOK =>
    show SInv (match alookup nonce st.pending with
      | none => st
      | some r =>
        if (error != "") || !fwdOK then { st with pending := adel nonce st.pending }
        else
          { st with
              pending := adel nonce st.pending,
              frontends := addFrontend aid connID
                { r with connID := connID, agentID := aid } st.frontends,
              signalled := r.rid :: st.signalled })
    cases hp : alookup nonce st.pending with
    | none => exact h
    | some r =>
      dsimp only
      have hrmem : (nonce, r) ∈ st.pending := alookup_mem hp
      by_cases hcond : ((error != "") || !fwdOK) = true
      · rw [if_pos hcond]
        refine ⟨?_, ?_, h.regBound, ?_⟩
        · intro p hp2
          exact h.pendingBound p (mem_adel.mp hp2).1
        · intro p hp2 q hq2 heq
          exact h.pendingInj p (mem_adel.mp hp2).1 q (mem_adel.mp hq2).1 heq
        · intro p hp2 r2 hr2
          exact h.noOverlap p (mem_adel.mp hp2).1 r2 hr2
      · rw [if_neg hcond]
        refine ⟨?_, ?_, ?_, ?_⟩
        · intro p hp2
          exact h.pendingBound p (mem_adel.mp hp2).1
        · intro p hp2 q hq2 heq
          exact h.pendingInj p (mem_adel.mp hp2).1 q (mem_adel.mp hq2).1 heq
        · intro r2 hr2
          rcases registryRecords_addFrontend hr2 with rfl | hr2
          · exact h.pendingBound _ hrmem
          · exact h.regBound r2 hr2
        · intro p hp2 r2 hr2
          obtain ⟨hpmem, hpne⟩ := mem_adel.mp hp2
          rcases registryRecords_addFrontend hr2 with rfl | hr2
          · intro heq
            have := h.pendingInj p hpmem (nonce, r) hrmem heq
            rw [this] at hpne
            exact hpne rfl
          · exact h.noOverlap p hpmem r2 hr2
  | backendData aid connID => exact h
  | backendCloseRsp aid connID =>
    refine ⟨h.pendingBound, h.pendingInj, ?_, ?_⟩
    · intro r hr
      exact h.regBound r (registryRecords_removeFrontend hr)
    · intro p hp r hr
      exact h.noOverlap p hp r (registryRecords_removeFrontend hr)
  | agentDisconnect aid b =>
    refine ⟨h.pendingBound, h.pendingInj, ?_, ?_⟩
    · intro r hr
      exact h.regBound r (registryRecords_backendCleanup hr)
    · intro p hp r hr
      exact h.noOverlap p hp r (registryRecords_backendCleanup hr)

theorem sinv_run (ops : List SOp) : SInv (runOps ops) := by
  rw [runOps]
  have hgen : ∀ s : SState, SInv s → SInv (ops.foldl applyOp s) := by
    induction ops with
    | nil => exact fun s hs => hs
    | cons op rest ih =>
      intro s hs
      rw [List.foldl_cons]
      exact ih _ (sinv_applyOp hs op)
  exact hgen initState sinv_init

/-- C3: at every state reachable by the shared-state operations, no
record object (identified by its allocation id) is simultaneously in
the pending-dial table and in the frontend registry: DIAL_RSP removes
the pending entry before inserting the record into the registry. -/
theorem pending_registry_exclusive (ops : List SOp) :
    ∀ p ∈ (runOps ops).pending, ∀ r ∈ registryRecords (runOps ops).frontends,
      (p.2 : Record).rid ≠ r.rid :=
  (sinv_run ops).noOverlap

/-- Witness for C3: after a dial, its promotion and a second dial, the
still-pending second record and the registered first record are
distinct objects. -/
theorem pending_registry_exclusive_witness :
    (Record.mk 1 "grpc" 1 0 "").rid ≠ (Record.mk 0 "grpc" 1 101 "A").rid :=
  pending_registry_exclusive
    [.grpcDialReq 7 (some 1), .dialRsp "A" 7 101 "" true, .grpcDialReq 8 (some 1)]
    (8, Record.mk 1 "grpc" 1 0 "") (by decide)
    (Record.mk 0 "grpc" 1 101 "A") (by decide)

/-! ## Frontend stream handler (serveRecvFrontend, server.go)

The per-stream handler state: the first connID latched from DATA
packets (0 while unset), the latched backend from the last DIAL_REQ's
manager call, the pending-dial records it added, and the packets it
passed to backend handles and to the frontend stream.  Each inbound
packet is paired with the backend manager's answer for that step (only
consulted on DIAL_REQ). -/

structure FrontendRun where
  firstConnID : Int
  backend : Option Nat
  pendingAdds : List (Int × Nat)
  toBackend : List (Nat × Packet)
  toFrontend : List Packet
deriving DecidableEq

def finit : FrontendRun :=
  { firstConnID := 0, backend := none, pendingAdds := [], toBackend := [], toFrontend := [] }

/-- One iteration of the packet loop in `serveRecvFrontend`:

* DIAL_REQ: `backend, err = BackendManager.Backend()` overwrites the
  latch even on failure (the error path just continues); on success a
  pending record is added under the dial nonce before the packet is
  sent to the backend.
* CLOSE_REQ / DATA: dropped while no backend is latched; DATA also
  latches the first connID seen while the latch is still 0.
* Anything else is ignored. -/
def frontendStep (st : FrontendRun) (ev : Packet × Option Nat) : FrontendRun :=
  match ev.1 with
  | .dialReq _ _ nonce =>
    match ev.2 with
    | none => { st with backend := none }
    | some b =>
      { st with
          backend := some b,
          pendingAdds := aset nonce b st.pendingAdds,
          toBackend := st.toBackend ++ [(b, ev.1)] }
  | .closeReq _ =>
    match st.backend with
    | none => st
    | some b => { st with toBackend := st.toBackend ++ [(b, ev.1)] }
  | .data cid _ =>
    let st2 := if st.firstConnID = 0 then { st with firstConnID := cid } else st
    match st2.backend with
    | none => st2
    | some b => { st2 with toBackend := st2.toBackend ++ [(b, ev.1)] }
  | .dialRsp _ _ _ => st
  | .closeRsp _ => st

/-- The code after the packet loop: synthesize CLOSE_REQ for the
latched first connID and send it to the latched backend, or return if
none was latched. -/
def frontendFinish (st : FrontendRun) : FrontendRun :=
  match st.backend with
  | none => st
  | some b => { st with toBackend := st.toBackend ++ [(b, Packet.closeReq st.firstConnID)] }

def runFrontend (evs : List (Packet × Option Nat)) : FrontendRun :=
  frontendFinish (evs.foldl frontendStep finit)

theorem frontendStep_dialReq_none (st : FrontendRun) (p a : String) (n : Int) :
    frontendStep st (.dialReq p a n, none) = { st with backend := none } := rfl

theorem frontendStep_dialRsp (st : FrontendRun) (r c : Int) (e : String) (sel : Option Nat) :
    frontendStep st (.dialRsp r c e, sel) = st := rfl

theorem frontendStep_closeRsp (st : FrontendRun) (c : Int) (sel : Option Nat) :
    frontendStep st (.closeRsp c, sel) = st := rfl

theorem frontendStep_toFrontend (st : FrontendRun) (ev : Packet × Option Nat) :
    (frontendStep st ev).toFrontend = st.toFrontend := by
  obtain ⟨p, sel⟩ := ev
  cases p with
  | dialReq pr a n =>
    cases sel with
    | none => rfl
    | some b => rfl
  | closeReq c =>
    show (match st.backend with
      | none => st
      | some b => { st with toBackend := st.toBackend ++ [(b, Packet.closeReq c)] }).toFrontend
      = st.toFrontend
    cases st.backend with
    | none => rfl
    | some b => rfl
  | data c bytes =>
    show ((let st2 := if st.firstConnID = 0 then { st with firstConnID := c } else st
      match st2.backend with
      | none => st2
      | some b => { st2 with toBackend := st2.toBackend ++ [(b, Packet.data c bytes)] }).toFrontend)
      = st.toFrontend
    by_cases hf : st.firstConnID = 0
    · rw [if_pos hf]
      dsimp only
      cases st.backend with
      | none => rfl
      | some b => rfl
    · rw [if_neg hf]
      dsimp only
      cases st.backend with
      | none => rfl
      | some b => rfl
  | dialRsp r c e => rfl
  | closeRsp c => rfl

theorem foldl_toFrontend (evs : List (Packet × Option Nat)) :
    ∀ st, (evs.foldl frontendStep st).toFrontend = st.toFrontend := by
  induction evs with
  | nil => intro st; rfl
  | cons ev rest ih =>
    intro st
    rw [List.foldl_cons, ih, frontendStep_toFrontend]

/-- C7: when a gRPC DIAL_REQ arrives and the backend manager has no
backend, the handler drops the request: no pending-dial record is
created, nothing is sent to any backend, nothing (in particular no
fabricated DIAL_RSP) is ever sent to the frontend by this handler, and
the loop goes on consuming the rest of the stream.  (The failed call
does overwrite the backend latch with nil, as the multiple-assignment
in the source does.) -/
theorem dial_req_no_backend_dropped (st : FrontendRun) (p a : String) (nonce : Int) :
    frontendStep st (.dialReq p a nonce, none) = { st with backend := none }
    ∧ (frontendStep st (.dialReq p a nonce, none)).pendingAdds = st.pendingAdds
    ∧ (frontendStep st (.dialReq p a nonce, none)).toBackend = st.toBackend
    ∧ (frontendStep st (.dialReq p a nonce, none)).toFrontend = st.toFrontend
    ∧ (∀ evs : List (Packet × Option Nat),
        List.foldl frontendStep st ((Packet.dialReq p a nonce, none) :: evs)
          = List.foldl frontendStep { st with backend := none } evs)
    ∧ (∀ evs : List (Packet × Option Nat), (runFrontend evs).toFrontend = []) := by
  refine ⟨rfl, rfl, rfl, rfl, fun evs => rfl, ?_⟩
  intro evs
  rw [runFrontend]
  have hfin : ∀ s : FrontendRun, (frontendFinish s).toFrontend = s.toFrontend := by
    intro s
    rw [frontendFinish]
    cases s.backend with
    | none => rfl
    | some b => rfl
  rw [hfin, foldl_toFrontend]
  rfl

/-! ### The first-connID latch at stream end (C8) -/

/-- The connIDs of a stream's DATA packets, in order. -/
def dataConnIDs (pkts : List Packet) : List Int :=
  pkts.filterMap (fun p => match p with | .data cid _ => some cid | _ => none)

/-- What the handler's firstConnID latch holds at stream end: the
first non-zero DATA connID (a connID of 0 leaves the latch unset), or
0 when there was none. -/
def firstNonzeroConnID (pkts : List Packet) : Int :=
  ((dataConnIDs pkts).filter (fun c => c != 0)).headD 0

theorem frontendStep_firstConnID (st : FrontendRun) (ev : Packet × Option Nat) :
    (frontendStep st ev).firstConnID
      = match ev.1 with
        | .data c _ => if st.firstConnID = 0 then c else st.firstConnID
        | _ => st.firstConnID := by
  obtain ⟨p, sel⟩ := ev
  cases p with
  | dialReq pr a n =>
    cases sel with
    | none => rfl
    | some b => rfl
  | closeReq c =>
    simp only [frontendStep]
    cases st.backend with
    | none => rfl
    | some b => rfl
  | data c bytes =>
    simp only [frontendStep]
    by_cases hf : st.firstConnID = 0
    · rw [if_pos hf, if_pos hf]
      dsimp only
      cases st.backend with
      | none => rfl
      | some b => rfl
    · rw [if_neg hf, if_neg hf]
      cases st.backend with
      | none => rfl
      | some b => rfl
  | dialRsp r c e => rfl
  | closeRsp c => rfl

theorem foldl_firstConnID_stable (evs : List (Packet × Option Nat)) :
    ∀ st : FrontendRun, st.firstConnID ≠ 0 →
      (evs.foldl frontendStep st).firstConnID = st.firstConnID := by
  induction evs with
  | nil =>
    intro st h
    rfl
  | cons ev rest ih =>
    intro st h
    rw [List.foldl_cons]
    have hstep : (frontendStep st ev).firstConnID = st.firstConnID := by
      rw [frontendStep_firstConnID]
      obtain ⟨p, sel⟩ := ev
      cases p with
      | data c bytes =>
        dsimp only
        rw [if_neg h]
      | dialReq pr a n => rfl
      | closeReq c => rfl
      | dialRsp r c e => rfl
      | closeRsp c => rfl
    rw [ih _ (by rw [hstep]; exact h), hstep]

theorem foldl_firstConnID (evs : List (Packet × Option Nat)) :
    ∀ st : FrontendRun, st.firstConnID = 0 →
      (evs.foldl frontendStep st).firstConnID = firstNonzeroConnID (evs.map Prod.fst) := by
  induction evs with
  | nil =>
    intro st h
    rw [List.foldl_nil, h]
    rfl
  | cons ev rest ih =>
    intro st h
    rw [List.foldl_cons, List.map_cons]
    obtain ⟨p, sel⟩ := ev
    cases p with
    | data c bytes =>
      by_cases hc : c = 0
      · subst hc
        have hstep : (frontendStep st (Packet.data 0 bytes, sel)).firstConnID = 0 := by
          rw [frontendStep_firstConnID]
          dsimp only
          rw [if_pos h]
        rw [ih _ hstep]
        simp [firstNonzeroConnID, dataConnIDs]
      · have hstep : (frontendStep st (Packet.data c bytes, sel)).firstConnID = c := by
          rw [frontendStep_firstConnID]
          dsimp only
          rw [if_pos h]
        rw [foldl_firstConnID_stable _ _ (by rw [hstep]; exact hc), hstep]
        simp [firstNonzeroConnID, dataConnIDs, hc]
    | dialReq pr a n =>
      have hstep : (frontendStep st (Packet.dialReq pr a n, sel)).firstConnID = 0 := by
        rw [frontendStep_firstConnID]
        exact h
      rw [ih _ hstep]
      simp [firstNonzeroConnID, dataConnIDs]
    | closeReq c =>
      have hstep : (frontendStep st (Packet.closeReq c, sel)).firstConnID = 0 := by
        rw [frontendStep_firstConnID]
        exact h
      rw [ih _ hstep]
      simp [firstNonzeroConnID, dataConnIDs]
    | dialRsp r c e =>
      have hstep : (frontendStep st (Packet.dialRsp r c e, sel)).firstConnID = 0 := by
        rw [frontendStep_firstConnID]
        exact h
      rw [ih _ hstep]
      simp [firstNonzeroConnID, dataConnIDs]
    | closeRsp c =>
      have hstep : (frontendStep st (Packet.closeRsp c, sel)).firstConnID = 0 := by
        rw [frontendStep_firstConnID]
        exact h
      rw [ih _ hstep]
      simp [firstNonzeroConnID, dataConnIDs]

/-- C8 (amended): at stream end, if a backend is currently latched the
handler appends exactly one synthesized CLOSE_REQ to that backend,
carrying the latch value — the first non-zero connID observed in DATA
packets (0 if none; a DATA packet with connID 0 does not set the
latch); if no backend is latched at stream end nothing is sent. -/
theorem stream_end_close_req (evs : List (Packet × Option Nat)) :
    ((evs.foldl frontendStep finit).backend = none →
      (runFrontend evs).toBackend = (evs.foldl frontendStep finit).toBackend)
    ∧ (∀ b, (evs.foldl frontendStep finit).backend = some b →
      (runFrontend evs).toBackend
        = (evs.foldl frontendStep finit).toBackend
            ++ [(b, Packet.closeReq (firstNonzeroConnID (evs.map Prod.fst)))]) := by
  constructor
  · intro hb
    rw [runFrontend, frontendFinish, hb]
  · intro b hb
    rw [runFrontend, frontendFinish, hb]
    dsimp only
    rw [foldl_firstConnID evs finit rfl]

/-- Witness for C8 at a concrete stream. -/
theorem stream_end_close_req_witness :
    (runFrontend [(Packet.dialReq "tcp" "h" 7, some 3),
        (Packet.data 101 [1, 2], none)]).toBackend
      = [(3, Packet.dialReq "tcp" "h" 7), (3, Packet.data 101 [1, 2]),
          (3, Packet.closeReq 101)] := by
  rw [(stream_end_close_req [(Packet.dialReq "tcp" "h" 7, some 3),
    (Packet.data 101 [1, 2], none)]).2 3 (by decide)]
  decide

/-- C8 counterexample to the claim as stated: on a stream whose first
DATA packet carries connID 0 and whose second carries 5, the
synthesized CLOSE_REQ carries 5, whereas the first connID observed in
DATA packets on the stream is 0. -/
theorem stream_end_close_req_counterexample :
    (runFrontend [(Packet.dialReq "tcp" "h" 7, some 3), (Packet.data 0 [], none),
        (Packet.data 5 [], none)]).toBackend
      = [(3, Packet.dialReq "tcp" "h" 7), (3, Packet.data 0 []), (3, Packet.data 5 []),
          (3, Packet.closeReq 5)]
    ∧ (dataConnIDs [Packet.dialReq "tcp" "h" 7, Packet.data 0 [],
        Packet.data 5 []]).headD 0 = 0
    ∧ (5 : Int) ≠ 0 := by
  refine ⟨by decide, by decide, by decide⟩

/-! ## HTTP CONNECT tunnel (Tunnel.ServeHTTP, tunnel.go)

`ServeHTTP` is modelled from its entry up to the wait on the
established-latch: everything after `<-connection.connected` (the
deferred `conn.Close()` and the read/forward loop) is past the claims'
scope and is concurrency the shallow embedding cuts at.  The backend
manager's answer is the oracle `sel` (for the destIP strategy it is
`destIPBackend` of the context value), `sendOK` reports whether
`backend.Send(dialRequest)` returned nil. -/

inductive TEffect
  | writeHeader (status : Nat)
  | httpError (status : Nat)
  | hijackSocket
  | pendingAdd (nonce : Int)
  | sendDialReq (backendId : Nat) (p : Packet)
  | closeConn
deriving DecidableEq

inductive TunnelOutcome
  | rejectedMethod
  | rejectedNoHijacker
  | rejectedHijackError
  | rejectedNoBackend
  | rejectedSendFailure
  | entersTunnelLoop
deriving DecidableEq

structure TunnelRun where
  outcome : TunnelOutcome
  effects : List TEffect
  pendingAfter : List (Int × Record)
deriving DecidableEq

/-- Model of `Tunnel.ServeHTTP`: reject non-CONNECT with 405; reject a
non-hijackable writer with 500; write the 200 header; hijack (an error
is answered with a 500 attempt); build the DIAL_REQ; ask the manager
for a backend and answer 500 on failure; add the pending record and
then send the DIAL_REQ, returning on a send error; otherwise proceed
to the latch wait.  No path up to here closes the hijacked socket:
`defer conn.Close()` is only registered after the latch wait. -/
def tunnelServeHTTP (method host : String) (hijackOK hijackErr : Bool) (random : Int)
    (nextRid : Nat) (sel : Option Nat) (sendOK : Bool)
    (pending0 : List (Int × Record)) : TunnelRun :=
  if method ≠ "CONNECT" then
    { outcome := .rejectedMethod, effects := [.httpError 405], pendingAfter := pending0 }
  else if ¬hijackOK then
    { outcome := .rejectedNoHijacker, effects := [.httpError 500], pendingAfter := pending0 }
  else if hijackErr then
    { outcome := .rejectedHijackError, effects := [.writeHeader 200, .httpError 500],
      pendingAfter := pending0 }
  else
    match sel with
    | none =>
      { outcome := .rejectedNoBackend,
        effects := [.writeHeader 200, .hijackSocket, .httpError 500],
        pendingAfter := pending0 }
    | some b =>
      let dialPkt := Packet.dialReq "tcp" host random
      let pending1 := aset random (Record.mk nextRid "http-connect" b 0 "") pending0
      if ¬sendOK then
        { outcome := .rejectedSendFailure,
          effects := [.writeHeader 200, .hijackSocket, .pendingAdd random,
            .sendDialReq b dialPkt],
          pendingAfter := pending1 }
      else
        { outcome := .entersTunnelLoop,
          effects := [.writeHeader 200, .hijackSocket, .pendingAdd random,
            .sendDialReq b dialPkt],
          pendingAfter := pending1 }

/-- C9: on a CONNECT request whose backend selection fails, the server
answers 500 and aborts the tunnel; no pending-dial record has been
created and no DIAL_REQ has been sent.  (The 200 header was already
written and the socket hijacked before selection, exactly as in the
source.) -/
theorem tunnel_no_backend_500 (host : String) (random : Int) (nextRid : Nat)
    (sendOK : Bool) (pending0 : List (Int × Record)) :
    tunnelServeHTTP "CONNECT" host true false random nextRid none sendOK pending0
      = { outcome := .rejectedNoBackend,
          effects := [.writeHeader 200, .hijackSocket, .httpError 500],
          pendingAfter := pending0 } := by
  rfl

/-- C10: on a CONNECT request whose DIAL_REQ send to the chosen
backend fails, the handler returns at once: the pending record just
added under the nonce is still in the table (this path never removes
it) and the handler has not closed the hijacked socket. -/
theorem tunnel_dial_send_failure (host : String) (random : Int) (nextRid : Nat) (b : Nat)
    (pending0 : List (Int × Record)) :
    (tunnelServeHTTP "CONNECT" host true false random nextRid (some b) false
        pending0).outcome = .rejectedSendFailure
    ∧ (tunnelServeHTTP "CONNECT" host true false random nextRid (some b) false
        pending0).pendingAfter
      = aset random (Record.mk nextRid "http-connect" b 0 "") pending0
    ∧ alookup random (tunnelServeHTTP "CONNECT" host true false random nextRid (some b)
        false pending0).pendingAfter
      = some (Record.mk nextRid "http-connect" b 0 "")
    ∧ TEffect.closeConn ∉ (tunnelServeHTTP "CONNECT" host true false random nextRid
        (some b) false pending0).effects := by
  refine ⟨rfl, rfl, alookup_aset_self _ _ _, ?_⟩
  intro hmem
  simp [tunnelServeHTTP] at hmem

/-- Witness for C10 at a concrete request. -/
theorem tunnel_dial_send_failure_witness :
    (tunnelServeHTTP "CONNECT" "node1:443" true false 7 0 (some 2) false []).outcome
      = TunnelOutcome.rejectedSendFailure :=
  (tunnel_dial_send_failure "node1:443" 7 0 2 []).1

end Proxy
